import Mathlib

/-!
Verification of the ProcessScheduler solving-orchestration layer
(`processscheduler/solver.py`, class `SchedulingSolver`).

The z3 expression/constraint surface used by `solver.py` is embedded as a
small AST (`Expr`, `Constraint`) with a decidable evaluator over finite
models.  The external z3 engine is modelled abstractly as an `Engine`
(check / model primitives) together with a soundness predicate: whenever
`check` answers sat, the produced model satisfies every staged assertion.
Python dictionary access `resource.busy_intervals[task]` can raise
`KeyError`; fallible lookups are modelled with `Option`.
-/

namespace ProcessScheduler

/-- An arithmetic expression over integer-valued solver variables,
mirroring the z3 `ArithRef` terms built by `solver.py`. -/
inductive Expr where
  | const : Int → Expr
  | var : String → Expr
  | add : Expr → Expr → Expr
  | sub : Expr → Expr → Expr
  | mul : Expr → Expr → Expr
deriving DecidableEq, Repr

/-- A raw z3 model: a finite assignment of integer values to variable
names, as returned by `solver.model()`. -/
def Model : Type := List (String × Int)

instance : DecidableEq Model := by
  unfold Model
  infer_instance

/-- Value of a variable in a model (`model[decl].as_long()`); z3 completes
missing variables with a default interpretation, modelled as 0. -/
def Model.get (m : Model) (x : String) : Int :=
  match m.find? (fun p => p.1 == x) with
  | some p => p.2
  | none => 0

/-- Evaluate an arithmetic expression under a model. -/
def Expr.eval (m : Model) : Expr → Int
  | .const k => k
  | .var x => m.get x
  | .add a b => a.eval m + b.eval m
  | .sub a b => a.eval m - b.eval m
  | .mul a b => a.eval m * b.eval m

/-- A boolean constraint handed to `solver.add`, mirroring the z3
`BoolRef` forms that `solver.py` builds: comparisons and `Or` over a
list of constraints. -/
inductive Constraint where
  | le : Expr → Expr → Constraint
  | ge : Expr → Expr → Constraint
  | eq : Expr → Expr → Constraint
  | ne : Expr → Expr → Constraint
  | orC : List Constraint → Constraint

mutual

/-- Truth value of a constraint under a model. -/
def evalC (m : Model) : Constraint → Bool
  | .le a b => decide (a.eval m ≤ b.eval m)
  | .ge a b => decide (b.eval m ≤ a.eval m)
  | .eq a b => decide (a.eval m = b.eval m)
  | .ne a b => decide (a.eval m ≠ b.eval m)
  | .orC cs => evalCs m cs

/-- Truth value of a z3 `Or` over a list of constraints (`Or([])` is false). -/
def evalCs (m : Model) : List Constraint → Bool
  | [] => false
  | c :: cs => evalC m c || evalCs m cs

end

/-- z3 `Sum` over a list of expressions; `Sum([])` collapses to the
integer 0. -/
def sumE : List Expr → Expr
  | [] => .const 0
  | e :: es => .add e (sumE es)

/-- Modelled from the spec: `ObjectiveType`, the enum declared in
`processscheduler.base` (not under src/); the four variants are the ones
named by the spec and branched on in `create_objectives`. -/
inductive ObjectiveType where
  | MAKESPAN
  | LATEST
  | FLOWTIME
  | EARLIEST
deriving DecidableEq, Repr

/-- An optimization directive staged into the engine
(`solver.minimize` / `solver.maximize`). -/
inductive Directive where
  | minimize : Expr → Directive
  | maximize : Expr → Directive
deriving DecidableEq, Repr

/-- Engine construction mode chosen by the constructor: `Optimize()`
with optimization support, or the plain decision procedure
`SolverFor("QF_LIA")`. -/
inductive EngineMode where
  | optimize
  | qflia
deriving DecidableEq, Repr

/-- Result of the `check()` call of the engine: `sat`, `unsat`, or `unknown`
carrying the `reason_unknown()` diagnostic of the engine. -/
inductive CheckResult where
  | sat
  | unsat
  | unknown : String → CheckResult
deriving DecidableEq, Repr

/-- The external solving engine, abstracted over its two primitives used
on the solving path: `check()` over the staged assertions, and
`model()` retrieving a raw model after a sat answer. -/
structure Engine where
  check : List Constraint → CheckResult
  model : List Constraint → Model

/-- Soundness of an engine: a sat answer comes with a model satisfying
every staged assertion.  This is the z3 contract the orchestrator
relies on. -/
def Engine.Sound (e : Engine) : Prop :=
  ∀ cs : List Constraint, e.check cs = .sat → ∀ c ∈ cs, evalC (e.model cs) c = true

/-- Modelled from the spec: the Resource entity of the Problem Model
(declared in `processscheduler.base`, not under src/), restricted to the
fields `solver.py` reads: `productivity`, the per-task `busy_intervals`
mapping, and the opaque assertions returned by `get_assertions()`. -/
structure Resource where
  name : String
  productivity : Int
  busy_intervals : List (String × Expr × Expr)
  assertions : List Constraint

/-- Python `resource.busy_intervals[task]`: dictionary lookup keyed by
the task; `none` models the `KeyError` path. -/
def Resource.busyInterval (r : Resource) (taskName : String) : Option (Expr × Expr) :=
  match r.busy_intervals.find? (fun p => p.1 == taskName) with
  | some p => some p.2
  | none => none

/-- Modelled from the spec: the Task entity of the Problem Model
(declared in `processscheduler.base`, not under src/), restricted to the
fields `solver.py` reads: `start`/`end` variables, the definitional
assertions from `get_assertions()`, the bound-suppression flags,
`work_amount` and the required resources. -/
structure Task where
  name : String
  start : Expr
  «end» : Expr
  assertions : List Constraint
  lower_bounded : Bool
  upper_bounded : Bool
  work_amount : Int
  required_resources : List Resource

/-- Modelled from the spec: the Problem Model registry (declared in
`processscheduler.base`, not under src/) as read by the constructor:
`name`, `horizon`, `get_tasks()`, `get_resources()`, `_constraints`
and `objectives`. -/
structure Problem where
  name : String
  horizon : Expr
  tasks : List Task
  resources : List Resource
  constraints : List Constraint
  objectives : List ObjectiveType

/-- `Option`-valued map over a list, failing as soon as `f` fails;
models a Python loop that may raise on any element. -/
def mapO (f : α → Option β) : List α → Option (List β)
  | [] => some []
  | x :: xs =>
    match f x, mapO f xs with
    | some y, some ys => some (y :: ys)
    | _, _ => none

/-- Work contribution of one required resource for a task:
`productivity * (interv_up - interv_low)` read off the busy
interval of the resource for that task (`none` models the `KeyError` on a missing
entry). -/
def workContribution (taskName : String) (r : Resource) : Option Expr :=
  match r.busyInterval taskName with
  | some (lo, hi) => some (.mul (.const r.productivity) (.sub hi lo))
  | none => none

/-- The single work-amount constraint built for one task:
`Sum(work_total_for_all_resources) >= task.work_amount`. -/
def taskWorkConstraint (t : Task) : Option Constraint :=
  match mapO (workContribution t.name) t.required_resources with
  | some contribs => some (.ge (sumE contribs) (.const t.work_amount))
  | none => none

/-- `SchedulingSolver.process_work_amount`: one `>=` constraint per task
with `work_amount > 0`, in task order; tasks with `work_amount <= 0`
contribute nothing. -/
def process_work_amount (tasks : List Task) : Option (List Constraint) :=
  mapO taskWorkConstraint (tasks.filter (fun t => 0 < t.work_amount))

/-- Constraints and optimization directives staged for one objective,
mirroring the four branches of `SchedulingSolver.create_objectives`. -/
def objectiveEncoding (tasks : List Task) (horizon : Expr) :
    ObjectiveType → List Constraint × List Directive
  | .MAKESPAN => ([], [.minimize horizon])
  | .LATEST =>
    (Constraint.orC (tasks.map (fun t => .eq (.var "SmallestStartTime") t.start))
       :: tasks.map (fun t => .le (.var "SmallestStartTime") t.start),
     [.maximize (.var "SmallestStartTime")])
  | .FLOWTIME =>
    ([.eq (.var "FlowTime") (sumE (tasks.map (fun t => t.«end»)))],
     [.minimize (.var "FlowTime")])
  | .EARLIEST =>
    (Constraint.orC (tasks.map (fun t => .eq (.var "GreatestStartTime") t.start))
       :: tasks.map (fun t => .ge (.var "GreatestStartTime") t.start),
     [.minimize (.var "GreatestStartTime")])

/-- `SchedulingSolver.create_objectives`: stage every requested
objective in caller order. -/
def create_objectives (objectives : List ObjectiveType) (tasks : List Task)
    (horizon : Expr) : List Constraint × List Directive :=
  objectives.foldr
    (fun o acc =>
      let e := objectiveEncoding tasks horizon o
      (e.1 ++ acc.1, e.2 ++ acc.2))
    ([], [])

/-- Per-task assertions staged by the constructor loop: the own
definitional assertions of the task, then `end >= 0`, then `start >= 0` unless
`lower_bounded`, then `end <= horizon` unless `upper_bounded`. -/
def taskAssertions (horizon : Expr) (t : Task) : List Constraint :=
  t.assertions ++ [.ge t.«end» (.const 0)]
    ++ (if t.lower_bounded then [] else [.ge t.start (.const 0)])
    ++ (if t.upper_bounded then [] else [.le t.«end» horizon])

/-- State of one solving session owned by a `SchedulingSolver` instance:
engine mode, the staged assertion list and optimization directives, the
retained `current_solution`, and the stored Solution of the Problem Model
(written through `set_solution`, whose invocations are counted). -/
structure OrchState where
  name : String
  mode : EngineMode
  assertions : List Constraint
  directives : List Directive
  current_solution : Option Model
  problem_solution : Option Model
  set_solution_calls : Nat

/-- `SchedulingSolver.__init__`: choose the engine mode from the
presence of objectives, then stage, in order, the per-task assertions
and bounds, the user constraints, the resource assertions, the
work-amount constraints and the objective encodings; `current_solution`
starts unset.  (`verbosity`, `max_time` and `parallel` only configure
engine options and diagnostics and play no role on the solving path.)
`none` models the `KeyError` raised by a missing busy-interval entry. -/
def buildSolver (p : Problem) : Option OrchState :=
  match process_work_amount p.tasks with
  | none => none
  | some workCs =>
    let oc := create_objectives p.objectives p.tasks p.horizon
    some
      { name := p.name
        mode := if p.objectives.isEmpty then .qflia else .optimize
        assertions :=
          p.tasks.flatMap (taskAssertions p.horizon)
            ++ p.constraints
            ++ p.resources.flatMap Resource.assertions
            ++ workCs ++ oc.1
        directives := oc.2
        current_solution := none
        problem_solution := none
        set_solution_calls := 0 }

/-- `SchedulingSolver.check_sat`: run the check of the engine; `unsat` gives
`false` with the "No solution exists" report, `unknown` gives `false`
with the report carrying `reason_unknown()`, and `sat` gives `true`.
(The wall-clock timing print is a real-time side effect and is not
modelled.) -/
def check_sat (eng : Engine) (st : OrchState) : Bool × Option String :=
  match eng.check st.assertions with
  | .unsat => (false, some ("No solution exists for problem " ++ st.name ++ "."))
  | .unknown reason =>
    (false, some ("No solution can be found for problem " ++ st.name
      ++ " because: " ++ reason))
  | .sat => (true, none)

/-- `SchedulingSolver.solve`: check satisfiability first and return
`false` untouched on failure; on success retrieve the raw model, hand
it to the `set_solution` of the Problem Model, and retain it as
`current_solution`. -/
def solve (eng : Engine) (st : OrchState) : Bool × OrchState :=
  if (check_sat eng st).1 then
    let m := eng.model st.assertions
    (true,
      { st with
          problem_solution := some m
          current_solution := some m
          set_solution_calls := st.set_solution_calls + 1 })
  else
    (false, st)

/-- `SchedulingSolver.find_another_solution`: with no retained solution,
warn and return `false` without touching any state; otherwise read the
value of the variable from the retained model, assert `variable != value`,
and re-invoke `solve`.  The third component collects the
`warnings.warn` messages emitted by the call. -/
def find_another_solution (eng : Engine) (st : OrchState) («variable» : String) :
    Bool × OrchState × List String :=
  match st.current_solution with
  | none => (false, st, ["No current solution. First call the solve() method."])
  | some m =>
    let current_variable_value := m.get «variable»
    let st1 := { st with
      assertions := st.assertions ++ [.ne (.var «variable») (.const current_variable_value)] }
    let r := solve eng st1
    (r.1, r.2, [])

/-!  Helper lemmas about the embedding. -/

/-- The empty model (all variables default to 0). -/
def mzero : Model := ([] : List (String × Int))

/-- Pointwise characterization of a successful `mapO`. -/
theorem mapO_forall2 {α β : Type} (f : α → Option β) :
    ∀ (xs : List α) (ys : List β), mapO f xs = some ys →
      List.Forall₂ (fun x y => f x = some y) xs ys := by
  intro xs
  induction xs with
  | nil =>
    intro ys h
    simp only [mapO, Option.some.injEq] at h
    subst h
    exact List.Forall₂.nil
  | cons x xs ih =>
    intro ys h
    simp only [mapO] at h
    cases hf : f x with
    | none => rw [hf] at h; simp at h
    | some y =>
      rw [hf] at h
      cases hm : mapO f xs with
      | none => rw [hm] at h; simp at h
      | some ys2 =>
        rw [hm] at h
        simp only [Option.some.injEq] at h
        subst h
        exact List.Forall₂.cons hf (ih ys2 hm)

/-- A successful `mapO` run contains an image of every list element. -/
theorem mapO_mem {α β : Type} (f : α → Option β) :
    ∀ (xs : List α) (ys : List β), mapO f xs = some ys →
      ∀ x ∈ xs, ∀ y, f x = some y → y ∈ ys := by
  intro xs
  induction xs with
  | nil => intro ys h x hx; exact absurd hx (List.not_mem_nil x)
  | cons a xs ih =>
    intro ys h x hx y hy
    simp only [mapO] at h
    cases hf : f a with
    | none => rw [hf] at h; simp at h
    | some b =>
      rw [hf] at h
      cases hm : mapO f xs with
      | none => rw [hm] at h; simp at h
      | some ys2 =>
        rw [hm] at h
        simp only [Option.some.injEq] at h
        subst h
        rcases List.mem_cons.mp hx with hxa | hxs
        · subst hxa
          rw [hf] at hy
          have hby : b = y := Option.some.inj hy
          subst hby
          exact List.mem_cons_self _ _
        · exact List.mem_cons_of_mem b (ih ys2 hm x hxs y hy)

/-- `Or` over a list evaluates as `List.any`. -/
theorem evalCs_eq_any (m : Model) : ∀ l : List Constraint, evalCs m l = l.any (evalC m) := by
  intro l
  induction l with
  | nil => rfl
  | cons c cs ih => simp [evalCs, List.any_cons, ih]

theorem evalC_ge_iff (m : Model) (a b : Expr) :
    evalC m (.ge a b) = true ↔ b.eval m ≤ a.eval m := by
  simp [evalC]

theorem evalC_le_iff (m : Model) (a b : Expr) :
    evalC m (.le a b) = true ↔ a.eval m ≤ b.eval m := by
  simp [evalC]

theorem evalC_eq_iff (m : Model) (a b : Expr) :
    evalC m (.eq a b) = true ↔ a.eval m = b.eval m := by
  simp [evalC]

theorem evalC_ne_iff (m : Model) (a b : Expr) :
    evalC m (.ne a b) = true ↔ a.eval m ≠ b.eval m := by
  simp [evalC]

/-- `check_sat` answers `true` exactly on a sat engine answer. -/
theorem check_sat_fst (eng : Engine) (st : OrchState) :
    (check_sat eng st).1 = true ↔ eng.check st.assertions = .sat := by
  unfold check_sat
  cases h : eng.check st.assertions <;> simp

/-- `solve` on a sat answer: the model is written through and retained. -/
theorem solve_of_sat (eng : Engine) (st : OrchState)
    (h : eng.check st.assertions = .sat) :
    solve eng st =
      (true,
        { st with
            problem_solution := some (eng.model st.assertions)
            current_solution := some (eng.model st.assertions)
            set_solution_calls := st.set_solution_calls + 1 }) := by
  unfold solve
  rw [if_pos ((check_sat_fst eng st).mpr h)]

/-- `solve` on a non-sat answer: `false` and the state untouched. -/
theorem solve_of_not_sat (eng : Engine) (st : OrchState)
    (h : ¬ eng.check st.assertions = .sat) :
    solve eng st = (false, st) := by
  unfold solve
  rw [if_neg]
  intro hc
  exact h ((check_sat_fst eng st).mp hc)

/-- Assertions are never modified by `solve`. -/
theorem solve_assertions (eng : Engine) (st : OrchState) :
    (solve eng st).2.assertions = st.assertions := by
  by_cases h : eng.check st.assertions = .sat
  · rw [solve_of_sat eng st h]
  · rw [solve_of_not_sat eng st h]

/-- A sound engine together with a successful `solve` yields a retained
model satisfying every staged assertion. -/
theorem solve_model_sat (eng : Engine) (hs : eng.Sound) (st : OrchState)
    (h : (solve eng st).1 = true) :
    (solve eng st).2.current_solution = some (eng.model st.assertions) ∧
      ∀ c ∈ st.assertions, evalC (eng.model st.assertions) c = true := by
  by_cases hc : eng.check st.assertions = .sat
  · rw [solve_of_sat eng st hc]
    exact ⟨rfl, hs st.assertions hc⟩
  · rw [solve_of_not_sat eng st hc] at h
    simp at h

/-- Shape of the staged assertion set produced by the constructor. -/
theorem buildSolver_eq (p : Problem) (st : OrchState) (h : buildSolver p = some st) :
    ∃ workCs, process_work_amount p.tasks = some workCs ∧
      st.assertions =
        p.tasks.flatMap (taskAssertions p.horizon) ++ p.constraints
          ++ p.resources.flatMap Resource.assertions ++ workCs
          ++ (create_objectives p.objectives p.tasks p.horizon).1 ∧
      st.mode = (if p.objectives.isEmpty then .qflia else .optimize) := by
  unfold buildSolver at h
  cases hw : process_work_amount p.tasks with
  | none => rw [hw] at h; simp at h
  | some w =>
    rw [hw] at h
    simp only [Option.some.injEq] at h
    exact ⟨w, rfl, by rw [← h], by rw [← h]⟩

/-- A test engine over a finite candidate list of models: `check` answers
sat exactly when some candidate satisfies every staged assertion, and
`model` returns the first such candidate (the default `df` otherwise). -/
def mkEngine (df : Model) (ms : List Model) : Engine where
  check := fun cs =>
    if ms.any (fun m => cs.all (evalC m)) then .sat else .unknown "candidates exhausted"
  model := fun cs => (ms.find? (fun m => cs.all (evalC m))).getD df

/-- Every candidate-list engine is sound. -/
theorem mkEngine_sound (df : Model) (ms : List Model) : (mkEngine df ms).Sound := by
  intro cs hsat c hc
  by_cases h : ms.any (fun m => cs.all (evalC m)) = true
  · obtain ⟨m, hm, hall⟩ := List.any_eq_true.mp h
    have hfind : (ms.find? (fun m => cs.all (evalC m))).isSome :=
      List.find?_isSome.mpr ⟨m, hm, hall⟩
    obtain ⟨m2, hm2⟩ := Option.isSome_iff_exists.mp hfind
    have hall2 := List.find?_some hm2
    have hmod : (mkEngine df ms).model cs = m2 := by simp [mkEngine, hm2]
    rw [hmod]
    exact List.all_eq_true.mp hall2 c hc
  · exfalso
    have hch : (mkEngine df ms).check cs = .unknown "candidates exhausted" := by
      show (if ms.any (fun m => cs.all (evalC m)) then CheckResult.sat
          else CheckResult.unknown "candidates exhausted") = _
      rw [if_neg h]
    rw [hch] at hsat
    exact absurd hsat (by simp)

/-- Unfolding of `find_another_solution` when no solution is retained. -/
theorem fas_none (eng : Engine) (st : OrchState) (v : String)
    (h : st.current_solution = none) :
    find_another_solution eng st v =
      (false, st, ["No current solution. First call the solve() method."]) := by
  unfold find_another_solution
  rw [h]

/-- Unfolding of `find_another_solution` when a solution is retained:
the exclusion constraint is appended and `solve` is re-invoked. -/
theorem fas_some (eng : Engine) (st : OrchState) (v : String) (m₀ : Model)
    (h : st.current_solution = some m₀) :
    find_another_solution eng st v =
      ((solve eng { st with
          assertions := st.assertions ++ [.ne (.var v) (.const (m₀.get v))] }).1,
       (solve eng { st with
          assertions := st.assertions ++ [.ne (.var v) (.const (m₀.get v))] }).2,
       []) := by
  unfold find_another_solution
  rw [h]

/-- Shape of the work contribution built for one required resource. -/
theorem workContribution_shape (n : String) (r : Resource) (e : Expr)
    (h : workContribution n r = some e) :
    ∃ lo hi, r.busyInterval n = some (lo, hi) ∧
      e = .mul (.const r.productivity) (.sub hi lo) := by
  unfold workContribution at h
  cases hb : r.busyInterval n with
  | none => rw [hb] at h; exact absurd h (by simp)
  | some q =>
    obtain ⟨lo, hi⟩ := q
    rw [hb] at h
    simp only [Option.some.injEq] at h
    exact ⟨lo, hi, rfl, h.symm⟩

/-- Shape of the work-amount constraint built for one task. -/
theorem taskWorkConstraint_shape (t : Task) (c : Constraint)
    (h : taskWorkConstraint t = some c) :
    ∃ contribs,
      mapO (workContribution t.name) t.required_resources = some contribs ∧
      c = .ge (sumE contribs) (.const t.work_amount) ∧
      List.Forall₂
        (fun r e => ∃ lo hi, Resource.busyInterval r t.name = some (lo, hi) ∧
            e = Expr.mul (.const r.productivity) (.sub hi lo))
        t.required_resources contribs := by
  unfold taskWorkConstraint at h
  cases hm : mapO (workContribution t.name) t.required_resources with
  | none => rw [hm] at h; exact absurd h (by simp)
  | some contribs =>
    rw [hm] at h
    simp only [Option.some.injEq] at h
    refine ⟨contribs, rfl, h.symm, ?_⟩
    exact List.Forall₂.imp (fun r e hre => workContribution_shape t.name r e hre)
      (mapO_forall2 (workContribution t.name) t.required_resources contribs hm)

/-- C1: `process_work_amount` stages, in task order, exactly one
constraint per task with `work_amount > 0` — the sum over the required
resources of `productivity * (busy_upper - busy_lower)` being `>=` the
work amount of the task — and none for a task with `work_amount = 0`
(the guard is `work_amount > 0`): the produced constraints correspond
one-to-one to the tasks passing the guard. -/
theorem C1_work_amount_constraints (tasks : List Task) (cs : List Constraint)
    (h : process_work_amount tasks = some cs) :
    List.Forall₂
      (fun t c =>
        ∃ contribs,
          mapO (workContribution t.name) t.required_resources = some contribs ∧
          c = Constraint.ge (sumE contribs) (.const t.work_amount) ∧
          List.Forall₂
            (fun r e => ∃ lo hi, Resource.busyInterval r t.name = some (lo, hi) ∧
                e = Expr.mul (.const r.productivity) (.sub hi lo))
            t.required_resources contribs)
      (tasks.filter (fun t => 0 < t.work_amount)) cs ∧
    cs.length = (tasks.filter (fun t => 0 < t.work_amount)).length := by
  unfold process_work_amount at h
  have h2 := mapO_forall2 taskWorkConstraint _ _ h
  exact ⟨List.Forall₂.imp (fun t c htc => taskWorkConstraint_shape t c htc) h2,
    (List.Forall₂.length_eq h2).symm⟩

/-- Concrete worker for the C1 witness. -/
def workerA : Resource :=
  { name := "Worker1", productivity := 1,
    busy_intervals := [("task1", (Expr.var "task1_Worker1_low", Expr.var "task1_Worker1_up"))],
    assertions := [] }

/-- Concrete task with positive work amount for the C1 witness. -/
def taskA : Task :=
  { name := "task1", start := .var "task1_start", «end» := .var "task1_end",
    assertions := [.eq (.var "task1_end") (.add (.var "task1_start") (.const 8))],
    lower_bounded := false, upper_bounded := false,
    work_amount := 2, required_resources := [workerA] }

/-- Concrete task with zero work amount for the C1 witness. -/
def taskB : Task :=
  { name := "task2", start := .var "task2_start", «end» := .var "task2_end",
    assertions := [], lower_bounded := false, upper_bounded := false,
    work_amount := 0, required_resources := [] }

theorem C1_witness :
    process_work_amount [taskA, taskB] =
      some [Constraint.ge
        (sumE [Expr.mul (.const 1) (.sub (.var "task1_Worker1_up") (.var "task1_Worker1_low"))])
        (.const 2)] ∧
    (List.Forall₂
      (fun t c =>
        ∃ contribs,
          mapO (workContribution t.name) t.required_resources = some contribs ∧
          c = Constraint.ge (sumE contribs) (.const t.work_amount) ∧
          List.Forall₂
            (fun r e => ∃ lo hi, Resource.busyInterval r t.name = some (lo, hi) ∧
                e = Expr.mul (.const r.productivity) (.sub hi lo))
            t.required_resources contribs)
      ([taskA, taskB].filter (fun t => 0 < t.work_amount))
      [Constraint.ge
        (sumE [Expr.mul (.const 1) (.sub (.var "task1_Worker1_up") (.var "task1_Worker1_low"))])
        (.const 2)] ∧
     [Constraint.ge
        (sumE [Expr.mul (.const 1) (.sub (.var "task1_Worker1_up") (.var "task1_Worker1_low"))])
        (.const 2)].length = ([taskA, taskB].filter (fun t => 0 < t.work_amount)).length) :=
  ⟨rfl, C1_work_amount_constraints [taskA, taskB] _ rfl⟩

/-- C3: a task with positive `work_amount` and no required resources
yields the empty-sum constraint `Sum([]) >= work_amount` without any
dictionary lookup (so building it raises no error), that constraint is
false under every model, and on any solver state built from a problem
containing the task every sound engine makes `check_sat` and `solve`
report failure through the ordinary `false` return, leaving the state
untouched — not through any distinct error path. -/
theorem C3_empty_resources_unsat (t : Task) (h1 : 0 < t.work_amount)
    (h2 : t.required_resources = []) :
    taskWorkConstraint t = some (.ge (sumE []) (.const t.work_amount)) ∧
    (∀ m : Model, evalC m (.ge (sumE []) (.const t.work_amount)) = false) ∧
    (∀ (p : Problem) (st : OrchState), buildSolver p = some st → t ∈ p.tasks →
      Constraint.ge (sumE []) (.const t.work_amount) ∈ st.assertions ∧
      ∀ eng : Engine, eng.Sound →
        (check_sat eng st).1 = false ∧ solve eng st = (false, st)) := by
  have hfalse : ∀ m : Model, evalC m (.ge (sumE []) (.const t.work_amount)) = false := by
    intro m
    have hnot : ¬ ((Expr.const t.work_amount).eval m ≤ (sumE []).eval m) := by
      simp only [sumE, Expr.eval]
      omega
    simp only [evalC]
    exact decide_eq_false hnot
  have hshape : taskWorkConstraint t = some (.ge (sumE []) (.const t.work_amount)) := by
    unfold taskWorkConstraint
    rw [h2]
    rfl
  refine ⟨hshape, hfalse, ?_⟩
  intro p st hb ht
  obtain ⟨workCs, hw, hassert, _⟩ := buildSolver_eq p st hb
  have htf : t ∈ p.tasks.filter (fun t => 0 < t.work_amount) :=
    List.mem_filter.mpr ⟨ht, decide_eq_true h1⟩
  have hcw : Constraint.ge (sumE []) (.const t.work_amount) ∈ workCs := by
    unfold process_work_amount at hw
    exact mapO_mem taskWorkConstraint _ _ hw t htf _ hshape
  have hmem : Constraint.ge (sumE []) (.const t.work_amount) ∈ st.assertions := by
    rw [hassert]
    exact List.mem_append_left _ (List.mem_append_right _ hcw)
  refine ⟨hmem, ?_⟩
  intro eng hs
  have hnotsat : ¬ eng.check st.assertions = .sat := by
    intro hsat
    have := hs st.assertions hsat _ hmem
    rw [hfalse (eng.model st.assertions)] at this
    exact absurd this (by simp)
  constructor
  · cases hcf : (check_sat eng st).1 with
    | false => rfl
    | true => exact absurd ((check_sat_fst eng st).mp hcf) hnotsat
  · exact solve_of_not_sat eng st hnotsat

/-- Concrete task with positive work amount and no resources. -/
def taskC : Task :=
  { name := "task3", start := .var "task3_start", «end» := .var "task3_end",
    assertions := [], lower_bounded := false, upper_bounded := false,
    work_amount := 5, required_resources := [] }

/-- Concrete problem containing only `taskC`. -/
def problemC3 : Problem :=
  { name := "EmptyResources", horizon := .var "horizon",
    tasks := [taskC], resources := [], constraints := [], objectives := [] }

/-- A throwaway orchestrator state used as a `getD` default. -/
def dummyState : OrchState :=
  { name := "", mode := .qflia, assertions := [], directives := [],
    current_solution := none, problem_solution := none, set_solution_calls := 0 }

/-- The solver state built from `problemC3`. -/
def stateC3 : OrchState := (buildSolver problemC3).getD dummyState

theorem C3_witness :
    (0 < taskC.work_amount ∧ taskC.required_resources = []) ∧
    solve (mkEngine mzero []) stateC3 = (false, stateC3) :=
  ⟨⟨by decide, rfl⟩,
    (((C3_empty_resources_unsat taskC (by decide) rfl).2.2 problemC3 stateC3 rfl
        (by simp [problemC3])).2 (mkEngine mzero []) (mkEngine_sound mzero [])).2⟩

/-- C2: a successful `find_another_solution` call on a sound engine
retains a model in which the variable differs from every value excluded
by an inequality constraint present after the call; the previously
staged assertions (hence all earlier exclusions) all persist, and the
new value differs in particular from the value the variable had in the
previously retained model. -/
theorem C2_diversification_excludes (eng : Engine) (hs : eng.Sound)
    (st : OrchState) (v : String)
    (hr : (find_another_solution eng st v).1 = true) :
    ∃ m, (find_another_solution eng st v).2.1.current_solution = some m ∧
      (∀ u : Int,
        Constraint.ne (.var v) (.const u) ∈ (find_another_solution eng st v).2.1.assertions →
          m.get v ≠ u) ∧
      (∀ c ∈ st.assertions, c ∈ (find_another_solution eng st v).2.1.assertions) ∧
      (∀ m₀, st.current_solution = some m₀ → m.get v ≠ m₀.get v) := by
  cases hcur : st.current_solution with
  | none =>
    rw [fas_none eng st v hcur] at hr
    exact absurd hr (by simp)
  | some m₀ =>
    have hfas := fas_some eng st v m₀ hcur
    rw [hfas] at hr
    generalize hA : ({ st with
      assertions := st.assertions ++ [.ne (.var v) (.const (m₀.get v))] } : OrchState) = st1 at hfas hr
    have hAassert : st1.assertions = st.assertions ++ [.ne (.var v) (.const (m₀.get v))] := by
      rw [← hA]
    obtain ⟨hcs, hsat⟩ := solve_model_sat eng hs st1 hr
    refine ⟨eng.model st1.assertions, ?_, ?_, ?_, ?_⟩
    · rw [hfas]
      exact hcs
    · intro u hu
      rw [hfas, solve_assertions] at hu
      have he := hsat _ hu
      rw [evalC_ne_iff] at he
      simpa [Expr.eval] using he
    · intro c hc
      rw [hfas, solve_assertions, hAassert]
      exact List.mem_append_left _ hc
    · intro m₁ hm₁
      have hm := Option.some.inj hm₁
      subst hm
      have hmem : Constraint.ne (.var v) (.const (m₀.get v)) ∈ st1.assertions := by
        rw [hAassert]
        exact List.mem_append_right _ (List.mem_singleton.mpr rfl)
      have he := hsat _ hmem
      rw [evalC_ne_iff] at he
      simpa [Expr.eval] using he

/-- Model assigning 0 to the variable x. -/
def modelX0 : Model := ([("x", (0 : Int))] : List (String × Int))

/-- Model assigning 1 to the variable x. -/
def modelX1 : Model := ([("x", (1 : Int))] : List (String × Int))

/-- Candidate engine for the C2 witness. -/
def engineC2 : Engine := mkEngine modelX0 [modelX0, modelX1]

/-- State with a retained solution for the C2 witness. -/
def stateC2 : OrchState :=
  { name := "p", mode := .qflia, assertions := [], directives := [],
    current_solution := some modelX0, problem_solution := some modelX0,
    set_solution_calls := 1 }

theorem C2_witness :
    (find_another_solution engineC2 stateC2 "x").1 = true ∧
    ∃ m, (find_another_solution engineC2 stateC2 "x").2.1.current_solution = some m ∧
      (∀ u : Int,
        Constraint.ne (.var "x") (.const u) ∈
            (find_another_solution engineC2 stateC2 "x").2.1.assertions →
          m.get "x" ≠ u) ∧
      (∀ c ∈ stateC2.assertions,
        c ∈ (find_another_solution engineC2 stateC2 "x").2.1.assertions) ∧
      (∀ m₀, stateC2.current_solution = some m₀ → m.get "x" ≠ m₀.get "x") :=
  ⟨rfl,
    C2_diversification_excludes engineC2 (mkEngine_sound modelX0 [modelX0, modelX1])
      stateC2 "x" rfl⟩

/-- C4: `check_sat` answers `false` with the "No solution exists"
report on a proved-unsat engine result, `false` with the report carrying
the stated engine reason on an inconclusive result, and `true` in the
only other case (`sat`); it is a total function, so `false` on
unsat/unknown is an ordinary return value, not an exception. -/
theorem C4_check_sat_cases (eng : Engine) (st : OrchState) :
    (eng.check st.assertions = .unsat →
      check_sat eng st =
        (false, some ("No solution exists for problem " ++ st.name ++ "."))) ∧
    (∀ r : String, eng.check st.assertions = .unknown r →
      check_sat eng st =
        (false, some ("No solution can be found for problem " ++ st.name
          ++ " because: " ++ r))) ∧
    (eng.check st.assertions = .sat → check_sat eng st = (true, none)) ∧
    ((check_sat eng st).1 = false ↔ eng.check st.assertions ≠ .sat) := by
  refine ⟨?_, ?_, ?_, ?_⟩
  · intro h
    unfold check_sat
    rw [h]
  · intro r h
    unfold check_sat
    rw [h]
  · intro h
    unfold check_sat
    rw [h]
  · unfold check_sat
    cases h : eng.check st.assertions <;> simp

/-- Engine whose check is always inconclusive with reason timeout. -/
def engineTimeout : Engine :=
  { check := fun _ => .unknown "timeout", model := fun _ => mzero }

theorem C4_witness :
    check_sat engineTimeout dummyState =
      (false, some ("No solution can be found for problem " ++ dummyState.name
        ++ " because: " ++ "timeout")) :=
  (C4_check_sat_cases engineTimeout dummyState).2.1 "timeout" rfl

/-- C5: `solve` answers `true` exactly when the engine check answers
sat (a model was obtained); on success the retrieved model is handed to
`set_solution` exactly once (one more recorded invocation, writing that
model) and the very same model is retained as `current_solution`; when
`check_sat` fails, `solve` answers `false` with the state untouched. -/
theorem C5_solve_contract (eng : Engine) (st : OrchState) :
    ((solve eng st).1 = true ↔ eng.check st.assertions = .sat) ∧
    ((solve eng st).1 = true →
      (solve eng st).2.problem_solution = some (eng.model st.assertions) ∧
      (solve eng st).2.current_solution = some (eng.model st.assertions) ∧
      (solve eng st).2.set_solution_calls = st.set_solution_calls + 1) ∧
    ((check_sat eng st).1 = false → solve eng st = (false, st)) := by
  by_cases h : eng.check st.assertions = .sat
  · rw [solve_of_sat eng st h]
    refine ⟨by simp [h], fun _ => ⟨rfl, rfl, rfl⟩, ?_⟩
    intro hf
    rw [(check_sat_fst eng st).mpr h] at hf
    exact absurd hf (by simp)
  · rw [solve_of_not_sat eng st h]
    exact ⟨by simp [h], by simp, fun _ => rfl⟩

/-- Engine that accepts the empty model. -/
def engineSat : Engine := mkEngine mzero [mzero]

theorem C5_witness :
    (solve engineSat dummyState).1 = true ∧
    ((solve engineSat dummyState).2.problem_solution
        = some (engineSat.model dummyState.assertions) ∧
      (solve engineSat dummyState).2.current_solution
        = some (engineSat.model dummyState.assertions) ∧
      (solve engineSat dummyState).2.set_solution_calls
        = dummyState.set_solution_calls + 1) :=
  ⟨rfl, (C5_solve_contract engineSat dummyState).2.1 rfl⟩

/-- C6: `find_another_solution` invoked while no solution is retained
warns ("No current solution. First call the solve() method."), answers
`false`, and returns the state unchanged: no constraint is staged and
the retained solution stays unset. -/
theorem C6_no_current_solution (eng : Engine) (st : OrchState) (v : String)
    (h : st.current_solution = none) :
    find_another_solution eng st v =
      (false, st, ["No current solution. First call the solve() method."]) :=
  fas_none eng st v h

theorem C6_witness :
    find_another_solution engineSat dummyState "x" =
      (false, dummyState, ["No current solution. First call the solve() method."]) :=
  C6_no_current_solution engineSat dummyState "x" rfl

/-- `Or` over a list evaluates as an existential over the list. -/
theorem evalC_orC (m : Model) (l : List Constraint) :
    evalC m (.orC l) = l.any (evalC m) := by
  rw [show evalC m (.orC l) = evalCs m l from rfl, evalCs_eq_any]

/-- C7: requesting the LATEST objective stages one auxiliary integer
variable (SmallestStartTime), one disjunction forcing it to equal the
start of at least one task, one `<=` constraint against every start of a
task, and one maximize directive on the auxiliary variable; under any
model the staged constraints hold exactly when the auxiliary value is
attained by some start of a task and is below every one of them. -/
theorem C7_latest_objective (tasks : List Task) (horizon : Expr) :
    create_objectives [ObjectiveType.LATEST] tasks horizon =
      (Constraint.orC (tasks.map (fun t => .eq (.var "SmallestStartTime") t.start))
         :: tasks.map (fun t => Constraint.le (.var "SmallestStartTime") t.start),
       [Directive.maximize (.var "SmallestStartTime")]) ∧
    (∀ m : Model,
      (∀ c ∈ (Constraint.orC (tasks.map (fun t => .eq (.var "SmallestStartTime") t.start))
           :: tasks.map (fun t => Constraint.le (.var "SmallestStartTime") t.start)),
         evalC m c = true) ↔
        ((∃ t ∈ tasks, m.get "SmallestStartTime" = t.start.eval m) ∧
         ∀ t ∈ tasks, m.get "SmallestStartTime" ≤ t.start.eval m)) := by
  constructor
  · simp [create_objectives, objectiveEncoding]
  · intro m
    constructor
    · intro h
      constructor
      · have h0 := h _ (List.mem_cons_self _ _)
        rw [evalC_orC, List.any_eq_true] at h0
        obtain ⟨c, hc, hce⟩ := h0
        obtain ⟨t, ht, rfl⟩ := List.mem_map.mp hc
        rw [evalC_eq_iff] at hce
        exact ⟨t, ht, by simpa [Expr.eval] using hce⟩
      · intro t ht
        have h1 := h _ (List.mem_cons_of_mem _ (List.mem_map.mpr ⟨t, ht, rfl⟩))
        rw [evalC_le_iff] at h1
        simpa [Expr.eval] using h1
    · rintro ⟨⟨t0, ht0, heq0⟩, hle⟩ c hc
      rcases List.mem_cons.mp hc with rfl | hc2
      · rw [evalC_orC, List.any_eq_true]
        refine ⟨_, List.mem_map.mpr ⟨t0, ht0, rfl⟩, ?_⟩
        rw [evalC_eq_iff]
        simpa [Expr.eval] using heq0
      · obtain ⟨t, ht, rfl⟩ := List.mem_map.mp hc2
        rw [evalC_le_iff]
        simpa [Expr.eval] using hle t ht

theorem C7_witness :
    create_objectives [ObjectiveType.LATEST] [taskA] (Expr.var "horizon") =
      (Constraint.orC [.eq (.var "SmallestStartTime") taskA.start]
         :: [Constraint.le (.var "SmallestStartTime") taskA.start],
       [Directive.maximize (.var "SmallestStartTime")]) :=
  (C7_latest_objective [taskA] (Expr.var "horizon")).1

/-- C8: the constructor chooses the optimization-capable engine mode
exactly when the problem declares at least one objective, and the plain
QF_LIA decision mode exactly when it declares none. -/
theorem C8_engine_mode (p : Problem) (st : OrchState) (h : buildSolver p = some st) :
    (st.mode = .optimize ↔ p.objectives ≠ []) ∧
    (st.mode = .qflia ↔ p.objectives = []) := by
  obtain ⟨w, hw, hassert, hmode⟩ := buildSolver_eq p st h
  rw [hmode]
  cases hobj : p.objectives with
  | nil => simp
  | cons o os => simp

/-- Problem declaring one objective. -/
def problemOpt : Problem :=
  { name := "Opt", horizon := .var "horizon", tasks := [], resources := [],
    constraints := [], objectives := [ObjectiveType.MAKESPAN] }

/-- The solver state built from `problemOpt`. -/
def stateOpt : OrchState := (buildSolver problemOpt).getD dummyState

theorem C8_witness :
    buildSolver problemOpt = some stateOpt ∧ stateOpt.mode = EngineMode.optimize :=
  ⟨rfl, (C8_engine_mode problemOpt stateOpt rfl).1.mpr (by simp [problemOpt])⟩

/-- C9: for every task the constructor stages `end >= 0`
unconditionally, `start >= 0` unless `lower_bounded`, and
`end <= horizon` unless `upper_bounded`; consequently, on a sound
engine, the model retained by a successful `solve` gives a task with
only default bounds `end >= 0`, `start >= 0` and `end <= horizon`. -/
theorem C9_default_bounds (p : Problem) (st : OrchState) (t : Task)
    (hb : buildSolver p = some st) (ht : t ∈ p.tasks) :
    Constraint.ge t.«end» (.const 0) ∈ st.assertions ∧
    (t.lower_bounded = false → Constraint.ge t.start (.const 0) ∈ st.assertions) ∧
    (t.upper_bounded = false → Constraint.le t.«end» p.horizon ∈ st.assertions) ∧
    (∀ eng : Engine, eng.Sound → (solve eng st).1 = true →
      t.lower_bounded = false → t.upper_bounded = false →
      ∀ m, (solve eng st).2.current_solution = some m →
        0 ≤ Expr.eval m t.«end» ∧ 0 ≤ Expr.eval m t.start ∧
        Expr.eval m t.«end» ≤ Expr.eval m p.horizon) := by
  obtain ⟨w, hw, hassert, hmode⟩ := buildSolver_eq p st hb
  have hsub : ∀ c ∈ taskAssertions p.horizon t, c ∈ st.assertions := by
    intro c hc
    rw [hassert]
    have hmem : c ∈ p.tasks.flatMap (taskAssertions p.horizon) :=
      List.mem_flatMap.mpr ⟨t, ht, hc⟩
    exact List.mem_append_left _ (List.mem_append_left _
      (List.mem_append_left _ (List.mem_append_left _ hmem)))
  have hend : Constraint.ge t.«end» (.const 0) ∈ st.assertions :=
    hsub _ (by simp [taskAssertions])
  have hstart : t.lower_bounded = false → Constraint.ge t.start (.const 0) ∈ st.assertions :=
    fun hlb => hsub _ (by simp [taskAssertions, hlb])
  have hhor : t.upper_bounded = false → Constraint.le t.«end» p.horizon ∈ st.assertions :=
    fun hub => hsub _ (by simp [taskAssertions, hub])
  refine ⟨hend, hstart, hhor, ?_⟩
  intro eng hs hsolve hlb hub m hm
  obtain ⟨hcs, hsat⟩ := solve_model_sat eng hs st hsolve
  rw [hcs] at hm
  have hmeq := Option.some.inj hm
  subst hmeq
  refine ⟨?_, ?_, ?_⟩
  · have he := hsat _ hend
    rw [evalC_ge_iff] at he
    simpa [Expr.eval] using he
  · have he := hsat _ (hstart hlb)
    rw [evalC_ge_iff] at he
    simpa [Expr.eval] using he
  · have he := hsat _ (hhor hub)
    rw [evalC_le_iff] at he
    simpa [Expr.eval] using he

/-- Default-bounded task for the C9 witness. -/
def taskD : Task :=
  { name := "t", start := .var "t_start", «end» := .var "t_end",
    assertions := [.eq (.var "t_end") (.add (.var "t_start") (.const 0))],
    lower_bounded := false, upper_bounded := false,
    work_amount := 0, required_resources := [] }

/-- Problem containing only `taskD`. -/
def problemC9 : Problem :=
  { name := "Bounds", horizon := .var "horizon", tasks := [taskD],
    resources := [], constraints := [], objectives := [] }

/-- The solver state built from `problemC9`. -/
def stateC9 : OrchState := (buildSolver problemC9).getD dummyState

theorem C9_witness :
    buildSolver problemC9 = some stateC9 ∧
    (0 ≤ Expr.eval mzero taskD.«end» ∧ 0 ≤ Expr.eval mzero taskD.start ∧
      Expr.eval mzero taskD.«end» ≤ Expr.eval mzero problemC9.horizon) :=
  ⟨rfl,
    (C9_default_bounds problemC9 stateC9 taskD rfl (by simp [problemC9])).2.2.2
      (mkEngine mzero [mzero]) (mkEngine_sound mzero [mzero]) rfl rfl rfl mzero rfl⟩

/-- C10: when `solve` answers `false` the whole state — in particular
the retained `current_solution` and the stored Solution of the Problem
Model — is returned unchanged, and a failed re-solve after
diversification likewise preserves both solution fields. -/
theorem C10_failure_preserves_solutions (eng : Engine) (st : OrchState) :
    ((solve eng st).1 = false → (solve eng st).2 = st) ∧
    (∀ v : String, (find_another_solution eng st v).1 = false →
      (find_another_solution eng st v).2.1.current_solution = st.current_solution ∧
      (find_another_solution eng st v).2.1.problem_solution = st.problem_solution) := by
  constructor
  · intro h
    by_cases hc : eng.check st.assertions = .sat
    · rw [solve_of_sat eng st hc] at h
      exact absurd h (by simp)
    · rw [solve_of_not_sat eng st hc]
  · intro v h
    cases hcur : st.current_solution with
    | none =>
      rw [fas_none eng st v hcur]
      exact ⟨hcur, rfl⟩
    | some m₀ =>
      have hfas := fas_some eng st v m₀ hcur
      rw [hfas] at h ⊢
      generalize hA : ({ st with
        assertions := st.assertions ++ [.ne (.var v) (.const (m₀.get v))] } : OrchState)
          = st1 at h ⊢
      by_cases hc : eng.check st1.assertions = .sat
      · rw [solve_of_sat eng st1 hc] at h
        exact absurd h (by simp)
      · rw [solve_of_not_sat eng st1 hc]
        rw [← hA]
        exact ⟨hcur, rfl⟩

/-- State with a retained solution for the C10 witness. -/
def stateC10 : OrchState :=
  { name := "q", mode := .qflia, assertions := [], directives := [],
    current_solution := some modelX0, problem_solution := some modelX0,
    set_solution_calls := 1 }

theorem C10_witness :
    (find_another_solution engineTimeout stateC10 "x").1 = false ∧
    ((find_another_solution engineTimeout stateC10 "x").2.1.current_solution
        = stateC10.current_solution ∧
      (find_another_solution engineTimeout stateC10 "x").2.1.problem_solution
        = stateC10.problem_solution) :=
  ⟨rfl, (C10_failure_preserves_solutions engineTimeout stateC10).2 "x" rfl⟩

end ProcessScheduler
